import Mathlib

/-!
Shallow embedding of
`cluster-autoscaler/vendor/k8s.io/kubernetes/pkg/api/v1/resource/qos_resource_helpers.go`
(package `resource`), together with proofs about its operations.

Modelling conventions:
* A Go `map[string]V` is modelled as an association list `List (String × V)`
  with unique keys in every map actually built by the code; `lookupV` is map
  indexing (`v, ok := m[k]`) and `setVal` is map assignment (`m[k] = v`).
* A Go `int64` amount is modelled as `Int` (no operation of this file brings
  an amount anywhere near the 64-bit boundary, and the claims are
  overflow-independent).
* A nil pointer receiver (`r *QOSResourcesTotal` with `r == nil`) is modelled
  by `Option`: `none` is the nil pointer.  A non-nil pointer to a nil map
  (`*r == nil`) is observationally identical to a pointer to an empty map for
  every operation of the file (lookups miss, iteration is empty, and `add`
  allocates before writing), so both are modelled as `some []`.
* Go `range` iteration over a map becomes `List.foldl` over the association
  list. Every per-entry body used in the file commutes between entries with
  distinct keys, so the list order stands in for Go's unspecified map order.
-/

namespace Resource

/-- Map indexing `v, ok := m[k]` on an association list: first matching key. -/
def lookupV {α : Type} : List (String × α) → String → Option α
  | [], _ => none
  | (k, v) :: t, n => if k = n then some v else lookupV t n

/-- Map assignment `m[k] = v` on an association list: replace the binding of
the first matching key, or append a new binding. -/
def setVal {α : Type} : List (String × α) → String → α → List (String × α)
  | [], k, v => [(k, v)]
  | (k', v') :: t, k, v => if k' = k then (k, v) :: t else (k', v') :: setVal t k v

/-- Go `v1.QOSResourceName` (a string type). -/
abbrev QOSResourceName := String

/-- Go `QOSResourceTotal = map[string]int64`: classes of one QoS resource with
the total amount of each class. -/
abbrev QOSResourceTotal := List (String × Int)

/-- Go `QOSResourcesTotal = map[v1.QOSResourceName]QOSResourceTotal`. -/
abbrev QOSResourcesTotal := List (QOSResourceName × QOSResourceTotal)

/-- Go `v1.QOSResourceClassInfo`: one advertised class with its capacity. -/
structure QOSResourceClassInfo where
  Name : String
  Capacity : Int
  deriving DecidableEq

/-- Go `v1.QOSResourceInfo`: one advertised QoS resource with its classes. -/
structure QOSResourceInfo where
  Name : QOSResourceName
  Classes : List QOSResourceClassInfo
  deriving DecidableEq

/-- Go `v1.PodQOSResourceRequest`: one pod-level request pair. -/
structure PodQOSResourceRequest where
  Name : QOSResourceName
  Class : String
  deriving DecidableEq

/-- Go `v1.QOSResourceRequest`: one container-level request pair. -/
structure QOSResourceRequest where
  Name : QOSResourceName
  Class : String
  deriving DecidableEq

/-- The `QOSResources` field of Go `v1.ResourceRequirements`. -/
structure ResourceRequirements where
  QOSResources : List QOSResourceRequest
  deriving DecidableEq

/-- The `Resources` field of Go `v1.Container`. -/
structure Container where
  Resources : ResourceRequirements
  deriving DecidableEq

/-- The fields of Go `v1.PodSpec` read by this file. -/
structure PodSpec where
  QOSResources : List PodQOSResourceRequest
  Containers : List Container
  InitContainers : List Container
  deriving DecidableEq

/-- Go `v1.Pod`, restricted to the fields read by this file. -/
structure Pod where
  Spec : PodSpec
  deriving DecidableEq

/-- Body of Go `add` past its nil guards: after the lazy allocations,
`(*r)[name][class] = (*r)[name][class] + amount` with zero-default reads. -/
def addGo (m : QOSResourcesTotal) (name : QOSResourceName) (cls : String)
    (amount : Int) : QOSResourcesTotal :=
  let inner := (lookupV m name).getD []
  setVal m name (setVal inner cls ((lookupV inner cls).getD 0 + amount))

/-- Go `add`: `if r == nil { return }`, allocate `*r` and `(*r)[name]` when
nil, then increment. The allocation of a nil `*r` is the identity in this
model (see the file comment), so only the nil-pointer guard remains. -/
def add (r : Option QOSResourcesTotal) (name : QOSResourceName) (cls : String)
    (amount : Int) : Option QOSResourcesTotal :=
  match r with
  | none => none
  | some m => some (addGo m name cls amount)

/-- Go `GetAmount` past its nil guards: the two-step map lookup. -/
def GetAmountGo (m : QOSResourcesTotal) (name : QOSResourceName) (cls : String) :
    Bool × Int :=
  match lookupV m name with
  | none => (false, 0)
  | some inner =>
    match lookupV inner cls with
    | some amount => (true, amount)
    | none => (false, 0)

/-- Go `GetAmount`: `if r == nil || *r == nil { return false, 0 }` (a nil map
is `[]` here, whose lookups miss), then the two-step lookup. -/
def GetAmount (r : Option QOSResourcesTotal) (name : QOSResourceName)
    (cls : String) : Bool × Int :=
  match r with
  | none => (false, 0)
  | some m => GetAmountGo m name cls

/-- Go `AddPodQOSResources` past its nil guard: one `add` of 1 per request. -/
def AddPodQOSResourcesGo (m : QOSResourcesTotal)
    (qrl : List PodQOSResourceRequest) : QOSResourcesTotal :=
  qrl.foldl (fun acc qr => addGo acc qr.Name qr.Class 1) m

/-- Go `AddPodQOSResources`: nil guard, then the loop of `add`s. -/
def AddPodQOSResources (r : Option QOSResourcesTotal)
    (qrl : List PodQOSResourceRequest) : Option QOSResourcesTotal :=
  match r with
  | none => none
  | some m => some (AddPodQOSResourcesGo m qrl)

/-- Go `AddContainerQOSResources` past its nil guard. -/
def AddContainerQOSResourcesGo (m : QOSResourcesTotal)
    (qrl : List QOSResourceRequest) : QOSResourcesTotal :=
  qrl.foldl (fun acc qr => addGo acc qr.Name qr.Class 1) m

/-- Go `AddContainerQOSResources`: nil guard, then the loop of `add`s. -/
def AddContainerQOSResources (r : Option QOSResourcesTotal)
    (qrl : List QOSResourceRequest) : Option QOSResourcesTotal :=
  match r with
  | none => none
  | some m => some (AddContainerQOSResourcesGo m qrl)

/-- Go `SetMaxContainerQOSResources` past its nil guard: for each request,
`if (*r)[qr.Name] == nil || (*r)[qr.Name][qr.Class] == 0 { r.add(.., 1) }`.
The second disjunct is Go's zero-default nested read. -/
def SetMaxContainerQOSResourcesGo (m : QOSResourcesTotal)
    (qrl : List QOSResourceRequest) : QOSResourcesTotal :=
  qrl.foldl (fun acc qr =>
    if lookupV acc qr.Name = none ∨
        (lookupV ((lookupV acc qr.Name).getD []) qr.Class).getD 0 = 0 then
      addGo acc qr.Name qr.Class 1
    else acc) m

/-- Go `SetMaxContainerQOSResources`: nil guard, then the conditional loop. -/
def SetMaxContainerQOSResources (r : Option QOSResourcesTotal)
    (qrl : List QOSResourceRequest) : Option QOSResourcesTotal :=
  match r with
  | none => none
  | some m => some (SetMaxContainerQOSResourcesGo m qrl)

/-- Go `Sum` past its nil guards: nested `range` over `*r2`, one `add` (of the
amount, or its negation) per inner entry. -/
def SumGo (m m2 : QOSResourcesTotal) (addFlag : Bool) : QOSResourcesTotal :=
  m2.foldl (fun acc res =>
    res.2.foldl (fun acc2 ce =>
      if addFlag then addGo acc2 res.1 ce.1 ce.2
      else addGo acc2 res.1 ce.1 (-1 * ce.2)) acc) m

/-- Go `Sum`: `if r == nil || r2 == nil { return }`, then the nested loop. -/
def Sum (r r2 : Option QOSResourcesTotal) (addFlag : Bool) :
    Option QOSResourcesTotal :=
  match r, r2 with
  | none, _ => none
  | some m, none => some m
  | some m, some m2 => some (SumGo m m2 addFlag)

/-- Go `Clone` past its nil guard: rebuild the outer map, copying each inner
map entry by entry. -/
def CloneGo (m : QOSResourcesTotal) : QOSResourcesTotal :=
  m.foldl (fun out kv =>
    let classes := kv.2.foldl (fun cs ca => setVal cs ca.1 ca.2) []
    setVal out kv.1 classes) []

/-- Go `Clone`: `if r == nil { return nil }`, then the deep copy. -/
def Clone (r : Option QOSResourcesTotal) : Option QOSResourcesTotal :=
  match r with
  | none => none
  | some m => some (CloneGo m)

/-- Go `QOSResourcesTotalFromInfo`: build a fresh ledger from capacity info,
`classes[c.Name] = c.Capacity` then `out[qr.Name] = classes`. -/
def QOSResourcesTotalFromInfo (inp : List QOSResourceInfo) : QOSResourcesTotal :=
  inp.foldl (fun out qr =>
    let classes := qr.Classes.foldl (fun cs c => setVal cs c.Name c.Capacity) []
    setVal out qr.Name classes) []

/-- Go `PodQOSResourceRequests`: make both ledgers, add pod-level requests to
the first, sum regular containers into the second, then the init-container
max-merge. -/
def PodQOSResourceRequests (pod : Pod) :
    Option QOSResourcesTotal × Option QOSResourcesTotal :=
  let podReqs : Option QOSResourcesTotal := some []
  let containerReqs : Option QOSResourcesTotal := some []
  let podReqs := AddPodQOSResources podReqs pod.Spec.QOSResources
  let containerReqs := pod.Spec.Containers.foldl
    (fun acc container =>
      AddContainerQOSResources acc container.Resources.QOSResources)
    containerReqs
  let containerReqs := pod.Spec.InitContainers.foldl
    (fun acc container =>
      SetMaxContainerQOSResources acc container.Resources.QOSResources)
    containerReqs
  (podReqs, containerReqs)

/-! ### Specification-side helper definitions used by the theorems -/

/-- Occurrences of the pair `(n, c)` in a container-level request list. -/
def countReq (qrl : List QOSResourceRequest) (n c : String) : Nat :=
  qrl.countP fun qr => decide (n = qr.Name ∧ c = qr.Class)

/-- Occurrences of the pair `(n, c)` in a pod-level request list. -/
def countPodReq (qrl : List PodQOSResourceRequest) (n c : String) : Nat :=
  qrl.countP fun qr => decide (n = qr.Name ∧ c = qr.Class)

/-- Total occurrences of the pair `(n, c)` across the request lists of a list
of containers. -/
def countContainers (cs : List Container) (n c : String) : Nat :=
  (cs.map fun ct => countReq ct.Resources.QOSResources n c).sum

/-- The last element of `l` whose key is `n`: later elements shadow earlier
ones, the way repeated Go map assignments to one key do. -/
def lastWins {ι : Type} (key : ι → String) : List ι → String → Option ι
  | [], _ => none
  | x :: t, n =>
    match lastWins key t n with
    | some y => some y
    | none => if key x = n then some x else none

/-- Well-formedness every Go map enjoys by construction: unique outer keys and
unique class keys in every inner counter. -/
def WF (m : QOSResourcesTotal) : Prop :=
  (m.map Prod.fst).Nodup ∧ ∀ e ∈ m, ((e.2.map Prod.fst).Nodup)

/-- One mutating ledger operation of the source file, for statements that
quantify over arbitrary operation sequences. -/
inductive LedgerOp where
  | addOp (name : QOSResourceName) (cls : String) (amount : Int)
  | addPodOp (qrl : List PodQOSResourceRequest)
  | addContainerOp (qrl : List QOSResourceRequest)
  | setMaxOp (qrl : List QOSResourceRequest)
  | sumOp (other : Option QOSResourcesTotal) (addFlag : Bool)

/-- Apply one `LedgerOp` to a receiver. -/
def applyOp (r : Option QOSResourcesTotal) : LedgerOp → Option QOSResourcesTotal
  | .addOp name cls amount => add r name cls amount
  | .addPodOp qrl => AddPodQOSResources r qrl
  | .addContainerOp qrl => AddContainerQOSResources r qrl
  | .setMaxOp qrl => SetMaxContainerQOSResources r qrl
  | .sumOp other addFlag => Sum r other addFlag

/-! ### Association-list lemmas -/

theorem lookupV_setVal_self {α : Type} (m : List (String × α)) (k : String)
    (v : α) : lookupV (setVal m k v) k = some v := by
  induction m with
  | nil => simp [setVal, lookupV]
  | cons e t ih =>
    obtain ⟨k', v'⟩ := e
    by_cases h : k' = k
    · simp [setVal, h, lookupV]
    · simp [setVal, h, lookupV, ih]

theorem lookupV_setVal_ne {α : Type} (m : List (String × α)) (k n : String)
    (v : α) (hne : n ≠ k) : lookupV (setVal m k v) n = lookupV m n := by
  induction m with
  | nil => simp [setVal, lookupV, Ne.symm hne]
  | cons e t ih =>
    obtain ⟨k', v'⟩ := e
    by_cases h : k' = k
    · subst h
      simp [setVal, lookupV, Ne.symm hne]
    · simp [setVal, h, lookupV, ih]

/-! ### `GetAmount` after `add` -/

/-- The effect of one `add` on every `GetAmount` query: the written pair
becomes present with its zero-default amount incremented; all other pairs are
unchanged. -/
theorem GetAmountGo_addGo (m : QOSResourcesTotal) (n₀ c₀ : String) (a : Int)
    (n c : String) :
    GetAmountGo (addGo m n₀ c₀ a) n c =
      if n = n₀ ∧ c = c₀ then (true, (GetAmountGo m n₀ c₀).2 + a)
      else GetAmountGo m n c := by
  by_cases hn : n = n₀
  · subst hn
    have houter :
        lookupV (addGo m n c₀ a) n =
          some (setVal ((lookupV m n).getD [])
            c₀ ((lookupV ((lookupV m n).getD []) c₀).getD 0 + a)) := by
      simp [addGo, lookupV_setVal_self]
    by_cases hc : c = c₀
    · subst hc
      simp only [GetAmountGo, houter, lookupV_setVal_self, true_and, if_pos rfl]
      cases hm : lookupV m n with
      | none => simp [hm, lookupV]
      | some inner =>
        cases hic : lookupV inner c with
        | none => simp [hm, hic]
        | some x => simp [hm, hic]
    · simp only [GetAmountGo, houter, lookupV_setVal_ne _ _ _ _ hc, hc,
        and_false, if_false]
      cases hm : lookupV m n with
      | none => simp [hm, lookupV]
      | some inner => simp
  · have houter : lookupV (addGo m n₀ c₀ a) n = lookupV m n := by
      simp [addGo, lookupV_setVal_ne _ _ _ _ hn]
    simp [GetAmountGo, houter, hn]

/-- Amount component of `GetAmountGo_addGo`. -/
theorem amt_addGo (m : QOSResourcesTotal) (n₀ c₀ : String) (a : Int)
    (n c : String) :
    (GetAmountGo (addGo m n₀ c₀ a) n c).2 =
      (GetAmountGo m n c).2 + (if n = n₀ ∧ c = c₀ then a else 0) := by
  rw [GetAmountGo_addGo]
  by_cases h : n = n₀ ∧ c = c₀
  · obtain ⟨h1, h2⟩ := h
    subst h1; subst h2
    simp
  · simp [h]

/-- Found component of `GetAmountGo_addGo`: `add` never loses a key. -/
theorem found_addGo (m : QOSResourcesTotal) (n₀ c₀ : String) (a : Int)
    (n c : String) (h : (GetAmountGo m n c).1 = true) :
    (GetAmountGo (addGo m n₀ c₀ a) n c).1 = true := by
  rw [GetAmountGo_addGo]
  by_cases hm : n = n₀ ∧ c = c₀ <;> simp [hm, h]

/-- A pair that `GetAmountGo` does not find has the zero default amount. -/
theorem amt_of_not_found (m : QOSResourcesTotal) (n c : String)
    (h : (GetAmountGo m n c).1 = false) : (GetAmountGo m n c).2 = 0 := by
  unfold GetAmountGo at h ⊢
  cases hm : lookupV m n with
  | none => simp [hm]
  | some inner =>
    cases hic : lookupV inner c with
    | none => simp [hm, hic]
    | some x => simp [hm, hic] at h

theorem GetAmountGo_nil (n c : String) : GetAmountGo [] n c = (false, 0) := by
  simp [GetAmountGo, lookupV]

/-! ### Counting request occurrences -/

/-- A fold of unit `add`s (one per element) makes a pair present exactly when
it occurs in the list, and raises its amount by its number of occurrences. -/
theorem GetAmountGo_addUnitFold {ι : Type} (nameOf clsOf : ι → String) :
    ∀ (l : List ι) (m : QOSResourcesTotal) (n c : String),
    GetAmountGo (l.foldl (fun acc x => addGo acc (nameOf x) (clsOf x) 1) m) n c =
      ((GetAmountGo m n c).1
          || decide (0 < l.countP fun x => decide (n = nameOf x ∧ c = clsOf x)),
       (GetAmountGo m n c).2
          + (l.countP fun x => decide (n = nameOf x ∧ c = clsOf x) : Nat)) := by
  intro l
  induction l with
  | nil => intro m n c; simp
  | cons x t ih =>
    intro m n c
    rw [List.foldl_cons, ih, GetAmountGo_addGo, List.countP_cons]
    by_cases h : n = nameOf x ∧ c = clsOf x
    · obtain ⟨h1, h2⟩ := h
      rw [if_pos ⟨h1, h2⟩, ← h1, ← h2]
      refine Prod.ext ?_ ?_
      · simp
      · simp only [decide_eq_true_eq, and_self, decide_True, if_true]
        push_cast
        ring
    · rw [if_neg h]
      have hd : (decide (n = nameOf x ∧ c = clsOf x)) = false := by
        simpa using h
      simp [hd]

theorem GetAmountGo_AddContainerGo (m : QOSResourcesTotal)
    (qrl : List QOSResourceRequest) (n c : String) :
    GetAmountGo (AddContainerQOSResourcesGo m qrl) n c =
      ((GetAmountGo m n c).1 || decide (0 < countReq qrl n c),
       (GetAmountGo m n c).2 + (countReq qrl n c : Nat)) := by
  unfold AddContainerQOSResourcesGo countReq
  exact GetAmountGo_addUnitFold (fun qr => qr.Name) (fun qr => qr.Class) qrl m n c

theorem GetAmountGo_AddPodGo (m : QOSResourcesTotal)
    (qrl : List PodQOSResourceRequest) (n c : String) :
    GetAmountGo (AddPodQOSResourcesGo m qrl) n c =
      ((GetAmountGo m n c).1 || decide (0 < countPodReq qrl n c),
       (GetAmountGo m n c).2 + (countPodReq qrl n c : Nat)) := by
  unfold AddPodQOSResourcesGo countPodReq
  exact GetAmountGo_addUnitFold (fun qr => qr.Name) (fun qr => qr.Class) qrl m n c

/-! ### The init-container presence-floor merge -/

/-- Go's guard `(*r)[n] == nil || (*r)[n][c] == 0` holds exactly when the
zero-default amount of the pair is 0 (absent resource, absent class, or a
present entry whose stored amount is 0). -/
theorem setMaxCond_iff (m : QOSResourcesTotal) (n c : String) :
    (lookupV m n = none ∨ (lookupV ((lookupV m n).getD []) c).getD 0 = 0) ↔
      (GetAmountGo m n c).2 = 0 := by
  unfold GetAmountGo
  cases hm : lookupV m n with
  | none => simp
  | some inner =>
    cases hic : lookupV inner c with
    | none => simp [hic]
    | some x => simp [hic]

/-- One step of the `SetMaxContainerQOSResources` loop: a pair whose
zero-default amount is 0 is floored to a present amount 1; every other query
is unchanged. -/
theorem GetAmountGo_setMaxStep (m : QOSResourcesTotal) (qr : QOSResourceRequest)
    (n c : String) :
    GetAmountGo
      (if lookupV m qr.Name = none ∨
          (lookupV ((lookupV m qr.Name).getD []) qr.Class).getD 0 = 0 then
        addGo m qr.Name qr.Class 1
      else m) n c =
      if (n = qr.Name ∧ c = qr.Class) ∧ (GetAmountGo m n c).2 = 0 then (true, 1)
      else GetAmountGo m n c := by
  by_cases hcond : lookupV m qr.Name = none ∨
      (lookupV ((lookupV m qr.Name).getD []) qr.Class).getD 0 = 0
  · rw [if_pos hcond, GetAmountGo_addGo]
    have hz : (GetAmountGo m qr.Name qr.Class).2 = 0 :=
      (setMaxCond_iff m qr.Name qr.Class).mp hcond
    by_cases h : n = qr.Name ∧ c = qr.Class
    · obtain ⟨h1, h2⟩ := h
      rw [if_pos ⟨h1, h2⟩, hz]
      have hz' : (GetAmountGo m n c).2 = 0 := by rw [h1, h2]; exact hz
      rw [if_pos ⟨⟨h1, h2⟩, hz'⟩]
      norm_num
    · rw [if_neg h, if_neg (by simp [h])]
  · rw [if_neg hcond]
    have hz : ¬(GetAmountGo m qr.Name qr.Class).2 = 0 := by
      intro h
      exact hcond ((setMaxCond_iff m qr.Name qr.Class).mpr h)
    by_cases h : n = qr.Name ∧ c = qr.Class
    · obtain ⟨h1, h2⟩ := h
      have : ¬(GetAmountGo m n c).2 = 0 := by rw [h1, h2]; exact hz
      rw [if_neg (by simp [this])]
    · rw [if_neg (by simp [h])]

/-- The `SetMaxContainerQOSResources` loop over a whole request list: a pair
occurring in the list whose zero-default amount was 0 ends at a present
amount 1; every other query is unchanged. -/
theorem GetAmountGo_setMaxGo :
    ∀ (qrl : List QOSResourceRequest) (m : QOSResourcesTotal) (n c : String),
    GetAmountGo (SetMaxContainerQOSResourcesGo m qrl) n c =
      if 0 < countReq qrl n c ∧ (GetAmountGo m n c).2 = 0 then (true, 1)
      else GetAmountGo m n c := by
  intro qrl
  induction qrl with
  | nil => intro m n c; simp [SetMaxContainerQOSResourcesGo, countReq]
  | cons qr t ih =>
    intro m n c
    show GetAmountGo (SetMaxContainerQOSResourcesGo _ t) n c = _
    rw [ih, GetAmountGo_setMaxStep]
    have hcnt : countReq (qr :: t) n c =
        countReq t n c + if n = qr.Name ∧ c = qr.Class then 1 else 0 := by
      simp [countReq, List.countP_cons]
    by_cases hp : n = qr.Name ∧ c = qr.Class
    · have hcnt1 : countReq (qr :: t) n c = countReq t n c + 1 := by
        rw [hcnt, if_pos hp]
      by_cases hz : (GetAmountGo m n c).2 = 0
      · have hstep : (if (n = qr.Name ∧ c = qr.Class) ∧
            (GetAmountGo m n c).2 = 0 then ((true, 1) : Bool × Int)
            else GetAmountGo m n c) = (true, 1) := if_pos ⟨hp, hz⟩
        rw [hstep, ite_self, if_pos ⟨show 0 < countReq (qr :: t) n c by omega, hz⟩]
      · have hstep : (if (n = qr.Name ∧ c = qr.Class) ∧
            (GetAmountGo m n c).2 = 0 then ((true, 1) : Bool × Int)
            else GetAmountGo m n c) = GetAmountGo m n c :=
          if_neg (fun hh => hz hh.2)
        rw [hstep, if_neg (fun hh => hz hh.2), if_neg
          (fun hh : 0 < countReq (qr :: t) n c ∧ (GetAmountGo m n c).2 = 0 =>
            hz hh.2)]
    · have hstep : (if (n = qr.Name ∧ c = qr.Class) ∧
          (GetAmountGo m n c).2 = 0 then ((true, 1) : Bool × Int)
          else GetAmountGo m n c) = GetAmountGo m n c :=
        if_neg (fun hh => hp hh.1)
      have hcnt0 : countReq (qr :: t) n c = countReq t n c := by
        rw [hcnt, if_neg hp]
        omega
      rw [hstep, hcnt0]

/-! ### Folding whole container lists -/

theorem countContainers_cons (ct : Container) (cs : List Container)
    (n c : String) :
    countContainers (ct :: cs) n c =
      countReq ct.Resources.QOSResources n c + countContainers cs n c := by
  simp [countContainers]

theorem decide_pos_add (a b : Nat) :
    (decide (0 < a) || decide (0 < b)) = decide (0 < a + b) := by
  rw [Bool.eq_iff_iff]
  simp only [Bool.or_eq_true, decide_eq_true_eq]
  omega

/-- Summing regular containers: presence reflects a positive total count and
the amount grows by the total count. -/
theorem GetAmountGo_containersAdd :
    ∀ (cs : List Container) (m : QOSResourcesTotal) (n c : String),
    GetAmountGo (cs.foldl
        (fun acc ct => AddContainerQOSResourcesGo acc ct.Resources.QOSResources)
        m) n c =
      ((GetAmountGo m n c).1 || decide (0 < countContainers cs n c),
       (GetAmountGo m n c).2 + (countContainers cs n c : Nat)) := by
  intro cs
  induction cs with
  | nil => intro m n c; simp [countContainers]
  | cons ct cs ih =>
    intro m n c
    rw [List.foldl_cons, ih, GetAmountGo_AddContainerGo, countContainers_cons]
    refine Prod.ext ?_ ?_
    · dsimp only
      rw [Bool.or_assoc, decide_pos_add]
    · dsimp only
      push_cast
      ring

/-- The init-container pass over a whole container list: a pair requested by
some init container whose amount was 0 ends present with amount 1; everything
else is unchanged. -/
theorem GetAmountGo_containersSetMax :
    ∀ (cs : List Container) (m : QOSResourcesTotal) (n c : String),
    GetAmountGo (cs.foldl
        (fun acc ct =>
          SetMaxContainerQOSResourcesGo acc ct.Resources.QOSResources) m) n c =
      if 0 < countContainers cs n c ∧ (GetAmountGo m n c).2 = 0 then (true, 1)
      else GetAmountGo m n c := by
  intro cs
  induction cs with
  | nil => intro m n c; simp [countContainers]
  | cons ct cs ih =>
    intro m n c
    rw [List.foldl_cons, ih, GetAmountGo_setMaxGo, countContainers_cons]
    by_cases h0 : 0 < countReq ct.Resources.QOSResources n c ∧
        (GetAmountGo m n c).2 = 0
    · have hstep : (if 0 < countReq ct.Resources.QOSResources n c ∧
          (GetAmountGo m n c).2 = 0 then ((true, 1) : Bool × Int)
          else GetAmountGo m n c) = (true, 1) := if_pos h0
      rw [hstep, ite_self,
        if_pos ⟨show 0 < countReq ct.Resources.QOSResources n c +
          countContainers cs n c by omega, h0.2⟩]
    · have hstep : (if 0 < countReq ct.Resources.QOSResources n c ∧
          (GetAmountGo m n c).2 = 0 then ((true, 1) : Bool × Int)
          else GetAmountGo m n c) = GetAmountGo m n c := if_neg h0
      rw [hstep]
      by_cases hz : (GetAmountGo m n c).2 = 0
      · have hk0 : countReq ct.Resources.QOSResources n c = 0 := by
          by_contra hk
          exact h0 ⟨by omega, hz⟩
        rw [hk0, Nat.zero_add]
      · rw [if_neg (fun hh => hz hh.2), if_neg
          (fun hh : 0 < countReq ct.Resources.QOSResources n c +
              countContainers cs n c ∧ (GetAmountGo m n c).2 = 0 =>
            hz hh.2)]

theorem foldl_AddContainer_some :
    ∀ (cs : List Container) (m : QOSResourcesTotal),
    cs.foldl (fun acc ct =>
        AddContainerQOSResources acc ct.Resources.QOSResources) (some m) =
      some (cs.foldl (fun acc ct =>
        AddContainerQOSResourcesGo acc ct.Resources.QOSResources) m) := by
  intro cs
  induction cs with
  | nil => intro m; rfl
  | cons ct cs ih =>
    intro m
    rw [List.foldl_cons, List.foldl_cons]
    exact ih (AddContainerQOSResourcesGo m ct.Resources.QOSResources)

theorem foldl_SetMax_some :
    ∀ (cs : List Container) (m : QOSResourcesTotal),
    cs.foldl (fun acc ct =>
        SetMaxContainerQOSResources acc ct.Resources.QOSResources) (some m) =
      some (cs.foldl (fun acc ct =>
        SetMaxContainerQOSResourcesGo acc ct.Resources.QOSResources) m) := by
  intro cs
  induction cs with
  | nil => intro m; rfl
  | cons ct cs ih =>
    intro m
    rw [List.foldl_cons, List.foldl_cons]
    exact ih (SetMaxContainerQOSResourcesGo m ct.Resources.QOSResources)

/-! ### The two ledgers returned by `PodQOSResourceRequests` -/

/-- Pod-level ledger: each pair is present exactly when it occurs among the
pod-level requests, with amount equal to its number of occurrences. -/
theorem GetAmount_podLedger (pod : Pod) (n c : String) :
    GetAmount (PodQOSResourceRequests pod).1 n c =
      (decide (0 < countPodReq pod.Spec.QOSResources n c),
       (countPodReq pod.Spec.QOSResources n c : Int)) := by
  show GetAmountGo (AddPodQOSResourcesGo [] pod.Spec.QOSResources) n c = _
  rw [GetAmountGo_AddPodGo, GetAmountGo_nil]
  simp

/-- Container-level ledger: the regular-container total when there is one,
floored to 1 by init-container presence when the regular total is 0. -/
theorem GetAmount_containerLedger (pod : Pod) (n c : String) :
    GetAmount (PodQOSResourceRequests pod).2 n c =
      if 0 < countContainers pod.Spec.InitContainers n c ∧
          countContainers pod.Spec.Containers n c = 0 then (true, 1)
      else (decide (0 < countContainers pod.Spec.Containers n c),
            (countContainers pod.Spec.Containers n c : Int)) := by
  have h1 : (PodQOSResourceRequests pod).2 =
      pod.Spec.InitContainers.foldl
        (fun acc ct => SetMaxContainerQOSResources acc ct.Resources.QOSResources)
        (pod.Spec.Containers.foldl
          (fun acc ct => AddContainerQOSResources acc ct.Resources.QOSResources)
          (some [])) := rfl
  rw [h1, foldl_AddContainer_some, foldl_SetMax_some]
  show GetAmountGo _ n c = _
  rw [GetAmountGo_containersSetMax, GetAmountGo_containersAdd, GetAmountGo_nil]
  simp [Nat.cast_eq_zero]

/-! ### Amount bookkeeping for `Sum` -/

/-- Folding `add`s of `g ce.2` for the inner entries of one resource changes
the amount of a query by the matching entries' total. -/
theorem amt_addFold_inner (rn : String) (g : Int → Int) :
    ∀ (ct : QOSResourceTotal) (m : QOSResourcesTotal) (n c : String),
    (GetAmountGo (ct.foldl (fun acc2 ce => addGo acc2 rn ce.1 (g ce.2)) m) n c).2 =
      (GetAmountGo m n c).2 +
        (if rn = n then (ct.map fun ce => if ce.1 = c then g ce.2 else 0).sum
         else 0) := by
  intro ct
  induction ct with
  | nil => intro m n c; by_cases hn : rn = n <;> simp [hn]
  | cons ce t ih =>
    intro m n c
    rw [List.foldl_cons, ih, amt_addGo, List.map_cons, List.sum_cons]
    by_cases hn : rn = n
    · subst hn
      by_cases hc : c = ce.1
      · subst hc
        simp [add_assoc]
      · simp [hc, Ne.symm hc, add_assoc]
    · simp [hn, Ne.symm hn]

/-- Folding `add`s of `g ce.2` over a whole second ledger changes the amount
of a query by the total of matching entries across the ledger. -/
theorem amt_addFold_outer (g : Int → Int) :
    ∀ (m2 m : QOSResourcesTotal) (n c : String),
    (GetAmountGo (m2.foldl (fun acc res =>
        res.2.foldl (fun acc2 ce => addGo acc2 res.1 ce.1 (g ce.2)) acc) m) n c).2 =
      (GetAmountGo m n c).2 +
        (m2.map fun res =>
          if res.1 = n then (res.2.map fun ce => if ce.1 = c then g ce.2 else 0).sum
          else 0).sum := by
  intro m2
  induction m2 with
  | nil => intro m n c; simp
  | cons res t ih =>
    intro m n c
    rw [List.foldl_cons, ih, amt_addFold_inner res.1 g res.2 m n c,
      List.map_cons, List.sum_cons]
    ring

theorem inner_neg_sum (ct : QOSResourceTotal) (c : String) :
    (ct.map fun ce => if ce.1 = c then -1 * ce.2 else 0).sum =
      -(ct.map fun ce => if ce.1 = c then ce.2 else 0).sum := by
  induction ct with
  | nil => simp
  | cons ce t ih =>
    rw [List.map_cons, List.sum_cons, List.map_cons, List.sum_cons, ih]
    by_cases h : ce.1 = c
    · rw [if_pos h, if_pos h]
      ring
    · rw [if_neg h, if_neg h]
      ring

theorem outer_neg_sum (m2 : QOSResourcesTotal) (n c : String) :
    (m2.map fun res =>
      if res.1 = n then (res.2.map fun ce => if ce.1 = c then -1 * ce.2 else 0).sum
      else 0).sum =
    -(m2.map fun res =>
      if res.1 = n then (res.2.map fun ce => if ce.1 = c then ce.2 else 0).sum
      else 0).sum := by
  induction m2 with
  | nil => simp
  | cons res t ih =>
    rw [List.map_cons, List.sum_cons, List.map_cons, List.sum_cons, ih]
    by_cases h : res.1 = n
    · rw [if_pos h, if_pos h, inner_neg_sum]
      ring
    · rw [if_neg h, if_neg h]
      ring

theorem amt_SumGo_true (m m2 : QOSResourcesTotal) (n c : String) :
    (GetAmountGo (SumGo m m2 true) n c).2 =
      (GetAmountGo m n c).2 +
        (m2.map fun res =>
          if res.1 = n then (res.2.map fun ce => if ce.1 = c then ce.2 else 0).sum
          else 0).sum :=
  amt_addFold_outer (fun x => x) m2 m n c

theorem amt_SumGo_false (m m2 : QOSResourcesTotal) (n c : String) :
    (GetAmountGo (SumGo m m2 false) n c).2 =
      (GetAmountGo m n c).2 -
        (m2.map fun res =>
          if res.1 = n then (res.2.map fun ce => if ce.1 = c then ce.2 else 0).sum
          else 0).sum := by
  have h2 : (GetAmountGo (SumGo m m2 false) n c).2 =
      (GetAmountGo m n c).2 +
        (m2.map fun res =>
          if res.1 = n then
            (res.2.map fun ce => if ce.1 = c then -1 * ce.2 else 0).sum
          else 0).sum :=
    amt_addFold_outer (fun x => -1 * x) m2 m n c
  rw [h2, outer_neg_sum]
  ring

/-! ### Rebuilding maps with repeated `setVal`: `Clone` and the info
conversion -/

/-- A fold of `setVal`s keyed by `key` over `l` answers lookups by the last
matching element of `l`, falling back to the initial accumulator. -/
theorem lookupV_foldl_setVal {ι β : Type} (key : ι → String) (f : ι → β) :
    ∀ (l : List ι) (out : List (String × β)) (n : String),
    lookupV (l.foldl (fun acc x => setVal acc (key x) (f x)) out) n =
      match lastWins key l n with
      | some x => some (f x)
      | none => lookupV out n := by
  intro l
  induction l with
  | nil => intro out n; rfl
  | cons x t ih =>
    intro out n
    rw [List.foldl_cons, ih]
    cases hl : lastWins key t n with
    | some y => simp [lastWins, hl]
    | none =>
      simp only [lastWins, hl]
      by_cases hk : key x = n
      · subst hk
        simp [lookupV_setVal_self]
      · simp [hk, lookupV_setVal_ne _ _ _ _ (fun h => hk h.symm)]

theorem lastWins_eq_some {ι : Type} (key : ι → String) :
    ∀ (l : List ι) (n : String) (x : ι),
    lastWins key l n = some x → key x = n ∧ x ∈ l := by
  intro l
  induction l with
  | nil => intro n x h; simp [lastWins] at h
  | cons y t ih =>
    intro n x h
    unfold lastWins at h
    cases hl : lastWins key t n with
    | some z =>
      rw [hl] at h
      obtain ⟨hz, hmem⟩ := ih n x (hl.trans h)
      exact ⟨hz, List.mem_cons_of_mem y hmem⟩
    | none =>
      rw [hl] at h
      by_cases hk : key y = n
      · rw [if_pos hk] at h
        cases h
        exact ⟨hk, List.mem_cons_self y t⟩
      · rw [if_neg hk] at h
        cases h

/-- With unique keys, last-match and the first-match `lookupV` agree. -/
theorem lastWins_pair_nodup {α : Type} :
    ∀ (l : List (String × α)), (l.map Prod.fst).Nodup →
    ∀ n, Option.map Prod.snd (lastWins Prod.fst l n) = lookupV l n := by
  intro l
  induction l with
  | nil => intro h n; rfl
  | cons kv t ih =>
    intro h n
    rw [List.map_cons] at h
    obtain ⟨hnm, hnd⟩ := List.nodup_cons.mp h
    cases hl : lastWins Prod.fst t n with
    | some y =>
      obtain ⟨hy, hmem⟩ := lastWins_eq_some Prod.fst t n y hl
      have hk : ¬kv.1 = n := by
        intro he
        exact hnm (he.symm ▸ hy ▸ List.mem_map_of_mem Prod.fst hmem)
      have hih := ih hnd n
      rw [hl] at hih
      simp [lastWins, hl, lookupV, hk, hih]
    | none =>
      have hih := ih hnd n
      rw [hl] at hih
      by_cases hk : kv.1 = n
      · simp [lastWins, hl, lookupV, hk]
      · simp [lastWins, hl, lookupV, hk, hih]

theorem lookupV_mem {α : Type} :
    ∀ (l : List (String × α)) (n : String) (v : α),
    lookupV l n = some v → (n, v) ∈ l := by
  intro l
  induction l with
  | nil => intro n v h; simp [lookupV] at h
  | cons kv t ih =>
    intro n v h
    unfold lookupV at h
    by_cases hk : kv.1 = n
    · rw [if_pos hk] at h
      injection h with hv
      exact List.mem_cons.mpr (Or.inl (by rw [← hk, ← hv]))
    · rw [if_neg hk] at h
      exact List.mem_cons_of_mem kv (ih n v h)

/-- `Clone` answers every outer lookup with a rebuilt copy of the inner map
found by the source lookup. -/
theorem lookupV_CloneGo (m : QOSResourcesTotal)
    (h : (m.map Prod.fst).Nodup) (n : String) :
    lookupV (CloneGo m) n =
      Option.map (fun ct => ct.foldl (fun cs ca => setVal cs ca.1 ca.2) [])
        (lookupV m n) := by
  have h1 := lookupV_foldl_setVal Prod.fst
    (fun kv : String × QOSResourceTotal =>
      kv.2.foldl (fun cs ca => setVal cs ca.1 ca.2) []) m [] n
  have h2 := lastWins_pair_nodup m h n
  rw [show CloneGo m = m.foldl (fun acc kv => setVal acc kv.1
    (kv.2.foldl (fun cs ca => setVal cs ca.1 ca.2) [])) [] from rfl, h1]
  cases hl : lastWins Prod.fst m n with
  | some kv =>
    rw [hl] at h2
    rw [← h2]
    rfl
  | none =>
    rw [hl] at h2
    rw [← h2]
    rfl

/-- On well-formed maps (which every map built by this file is), `Clone`
preserves every `GetAmount` answer. -/
theorem GetAmountGo_CloneGo (m : QOSResourcesTotal) (h : WF m) (n c : String) :
    GetAmountGo (CloneGo m) n c = GetAmountGo m n c := by
  unfold GetAmountGo
  rw [lookupV_CloneGo m h.1 n]
  cases hm : lookupV m n with
  | none => rfl
  | some ct =>
    have hin : ((ct.map Prod.fst).Nodup) := h.2 (n, ct) (lookupV_mem m n ct hm)
    have h3 := lookupV_foldl_setVal (Prod.fst : String × Int → String)
      Prod.snd ct [] c
    have h4 := lastWins_pair_nodup ct hin c
    simp only [Option.map]
    rw [h3]
    cases hl : lastWins Prod.fst ct c with
    | some ca =>
      rw [hl] at h4
      rw [← h4]
      rfl
    | none =>
      rw [hl] at h4
      rw [← h4]
      rfl

/-! ### Found-flag monotonicity -/

theorem found_foldl {ι : Type} (step : QOSResourcesTotal → ι → QOSResourcesTotal)
    (hstep : ∀ m x n c, (GetAmountGo m n c).1 = true →
      (GetAmountGo (step m x) n c).1 = true) :
    ∀ (l : List ι) (m : QOSResourcesTotal) (n c : String),
    (GetAmountGo m n c).1 = true →
      (GetAmountGo (l.foldl step m) n c).1 = true := by
  intro l
  induction l with
  | nil => intro m n c h; exact h
  | cons x t ih =>
    intro m n c h
    rw [List.foldl_cons]
    exact ih (step m x) n c (hstep m x n c h)

theorem found_setMaxGoStep (m : QOSResourcesTotal) (qr : QOSResourceRequest)
    (n c : String) (h : (GetAmountGo m n c).1 = true) :
    (GetAmountGo
      (if lookupV m qr.Name = none ∨
          (lookupV ((lookupV m qr.Name).getD []) qr.Class).getD 0 = 0 then
        addGo m qr.Name qr.Class 1
      else m) n c).1 = true := by
  by_cases hcond : lookupV m qr.Name = none ∨
      (lookupV ((lookupV m qr.Name).getD []) qr.Class).getD 0 = 0
  · rw [if_pos hcond]
    exact found_addGo m qr.Name qr.Class 1 n c h
  · rw [if_neg hcond]
    exact h

theorem found_applyOp (r : Option QOSResourcesTotal) (op : LedgerOp)
    (n c : String) (h : (GetAmount r n c).1 = true) :
    (GetAmount (applyOp r op) n c).1 = true := by
  cases r with
  | none => simp [GetAmount] at h
  | some m =>
    cases op with
    | addOp n0 c0 a => exact found_addGo m n0 c0 a n c h
    | addPodOp qrl =>
      exact found_foldl (fun acc qr => addGo acc qr.Name qr.Class 1)
        (fun m' x n' c' h' => found_addGo m' x.Name x.Class 1 n' c' h')
        qrl m n c h
    | addContainerOp qrl =>
      exact found_foldl (fun acc qr => addGo acc qr.Name qr.Class 1)
        (fun m' x n' c' h' => found_addGo m' x.Name x.Class 1 n' c' h')
        qrl m n c h
    | setMaxOp qrl =>
      exact found_foldl _
        (fun m' x n' c' h' => found_setMaxGoStep m' x n' c' h')
        qrl m n c h
    | sumOp other addFlag =>
      cases other with
      | none => exact h
      | some m2 =>
        refine found_foldl
          (fun acc res => res.2.foldl (fun acc2 ce =>
            if addFlag then addGo acc2 res.1 ce.1 ce.2
            else addGo acc2 res.1 ce.1 (-1 * ce.2)) acc)
          (fun m' res n' c' h' => ?_) m2 m n c h
        refine found_foldl
          (fun acc2 ce =>
            if addFlag then addGo acc2 res.1 ce.1 ce.2
            else addGo acc2 res.1 ce.1 (-1 * ce.2))
          (fun m'' ce n'' c'' h'' => ?_) res.2 m' n' c' h'
        dsimp only
        by_cases hf : addFlag = true
        · rw [if_pos hf]
          exact found_addGo m'' res.1 ce.1 ce.2 n'' c'' h''
        · rw [if_neg hf]
          exact found_addGo m'' res.1 ce.1 (-1 * ce.2) n'' c'' h''

/-! ### Claims -/

/-- C1, counterexample: a ledger holding an existing entry `(gpu, fast)` with
amount 0 is not left untouched by `SetMaxContainerQOSResources` — the entry
is bumped to 1, because Go's zero-default map read cannot distinguish a
stored 0 from an absent entry. -/
theorem setMax_zero_entry_counterexample :
    GetAmount (some [("gpu", [("fast", (0 : Int))])]) "gpu" "fast" =
      (true, 0) ∧
    GetAmount (SetMaxContainerQOSResources
      (some [("gpu", [("fast", (0 : Int))])]) [⟨"gpu", "fast"⟩]) "gpu" "fast" =
      (true, 1) ∧
    GetAmount (SetMaxContainerQOSResources
      (some [("gpu", [("fast", (0 : Int))])]) [⟨"gpu", "fast"⟩]) "gpu" "fast" ≠
      GetAmount (some [("gpu", [("fast", (0 : Int))])]) "gpu" "fast" := by
  refine ⟨by decide, by decide, by decide⟩

/-- C1, amended: for each init-container request pair, if the ledger has no
entry for the pair, or an entry with amount 0, the merge sets the amount
to 1; an existing entry with a non-zero amount is left untouched. -/
theorem setMax_presence_floor (m : QOSResourcesTotal) (n c : String) :
    ((GetAmount (some m) n c).1 = false →
      GetAmount (SetMaxContainerQOSResources (some m) [⟨n, c⟩]) n c =
        (true, 1)) ∧
    (GetAmount (some m) n c = (true, 0) →
      GetAmount (SetMaxContainerQOSResources (some m) [⟨n, c⟩]) n c =
        (true, 1)) ∧
    (∀ a : Int, a ≠ 0 → GetAmount (some m) n c = (true, a) →
      GetAmount (SetMaxContainerQOSResources (some m) [⟨n, c⟩]) n c =
        (true, a)) := by
  have key : GetAmount (SetMaxContainerQOSResources (some m) [⟨n, c⟩]) n c =
      if 0 < countReq [⟨n, c⟩] n c ∧ (GetAmount (some m) n c).2 = 0 then
        (true, 1)
      else GetAmount (some m) n c :=
    GetAmountGo_setMaxGo [⟨n, c⟩] m n c
  have hcnt : countReq [⟨n, c⟩] n c = 1 := by simp [countReq]
  refine ⟨fun h => ?_, fun h => ?_, fun a ha h => ?_⟩
  · rw [key, if_pos ⟨by omega, amt_of_not_found m n c h⟩]
  · have hz : (GetAmount (some m) n c).2 = 0 := by rw [h]
    rw [key, if_pos ⟨by omega, hz⟩]
  · rw [key, if_neg (fun hh => ha (by rw [h] at hh; exact hh.2)), h]

/-- C1 witness: instantiating the amended theorem at a one-entry ledger with
amount 5 and the same request pair. -/
theorem setMax_presence_floor_inst :
    GetAmount (SetMaxContainerQOSResources (some [("g", [("f", (5 : Int))])])
      [⟨"g", "f"⟩]) "g" "f" = (true, 5) :=
  (setMax_presence_floor [("g", [("f", (5 : Int))])] "g" "f").2.2 5
    (by decide) (by decide)

/-- C2: in the container-level ledger, a pair requested by at least one
regular container carries the total number of regular-container occurrences,
and a pair requested only by init containers (however many) carries exactly
1. -/
theorem containerLedger_sum_regular_floor_init (pod : Pod) (n c : String) :
    (0 < countContainers pod.Spec.Containers n c →
      GetAmount (PodQOSResourceRequests pod).2 n c =
        (true, (countContainers pod.Spec.Containers n c : Int))) ∧
    (countContainers pod.Spec.Containers n c = 0 →
      0 < countContainers pod.Spec.InitContainers n c →
      GetAmount (PodQOSResourceRequests pod).2 n c = (true, 1)) := by
  constructor
  · intro hk
    rw [GetAmount_containerLedger, if_neg (fun hh => by omega)]
    simp [hk]
  · intro hk hi
    rw [GetAmount_containerLedger, if_pos ⟨hi, hk⟩]

/-- C2 witness: three regular containers and two init containers requesting
`(gpu, fast)` give amount 3; two init containers alone would give 1, shown on
a second pod with no regular requests. -/
theorem containerLedger_sum_regular_floor_init_inst :
    GetAmount (PodQOSResourceRequests
      ⟨⟨[], [⟨⟨[⟨"gpu", "fast"⟩]⟩⟩, ⟨⟨[⟨"gpu", "fast"⟩]⟩⟩, ⟨⟨[⟨"gpu", "fast"⟩]⟩⟩],
        [⟨⟨[⟨"gpu", "fast"⟩]⟩⟩, ⟨⟨[⟨"gpu", "fast"⟩]⟩⟩]⟩⟩).2 "gpu" "fast" =
      (true, 3) ∧
    GetAmount (PodQOSResourceRequests
      ⟨⟨[], [], [⟨⟨[⟨"gpu", "fast"⟩]⟩⟩, ⟨⟨[⟨"gpu", "fast"⟩]⟩⟩]⟩⟩).2
      "gpu" "fast" = (true, 1) :=
  ⟨(containerLedger_sum_regular_floor_init
      ⟨⟨[], [⟨⟨[⟨"gpu", "fast"⟩]⟩⟩, ⟨⟨[⟨"gpu", "fast"⟩]⟩⟩, ⟨⟨[⟨"gpu", "fast"⟩]⟩⟩],
        [⟨⟨[⟨"gpu", "fast"⟩]⟩⟩, ⟨⟨[⟨"gpu", "fast"⟩]⟩⟩]⟩⟩ "gpu" "fast").1
      (by decide),
   (containerLedger_sum_regular_floor_init
      ⟨⟨[], [], [⟨⟨[⟨"gpu", "fast"⟩]⟩⟩, ⟨⟨[⟨"gpu", "fast"⟩]⟩⟩]⟩⟩ "gpu" "fast").2
      (by decide) (by decide)⟩

/-- C3: `GetAmount` returns `(false, 0)` when the resource key is absent,
`(false, 0)` when the resource key is present but the class key is absent,
and `(true, amount)` when both are present — including amount 0. -/
theorem getAmount_three_way_lookup (m : QOSResourcesTotal) (n c : String) :
    (lookupV m n = none → GetAmount (some m) n c = (false, 0)) ∧
    (∀ inner, lookupV m n = some inner → lookupV inner c = none →
      GetAmount (some m) n c = (false, 0)) ∧
    (∀ inner a, lookupV m n = some inner → lookupV inner c = some a →
      GetAmount (some m) n c = (true, a)) := by
  refine ⟨fun h => ?_, fun inner h hc => ?_, fun inner a h hc => ?_⟩
  · show GetAmountGo m n c = _
    unfold GetAmountGo
    rw [h]
  · show GetAmountGo m n c = _
    unfold GetAmountGo
    rw [h]
    simp [hc]
  · show GetAmountGo m n c = _
    unfold GetAmountGo
    rw [h]
    simp [hc]

/-- C3 witness: after `Sum(other, false)` drives an amount back to 0, the key
is still present and `GetAmount` reports `(true, 0)`. -/
theorem getAmount_three_way_lookup_inst :
    GetAmount (some (SumGo [("g", [("f", (2 : Int))])]
      [("g", [("f", (2 : Int))])] false)) "g" "f" = (true, 0) :=
  (getAmount_three_way_lookup
      (SumGo [("g", [("f", (2 : Int))])] [("g", [("f", (2 : Int))])] false)
      "g" "f").2.2 [("f", (0 : Int))] 0 (by decide) (by decide)

/-- C4: `Sum(other, true)` followed by `Sum(other, false)` on the same
receiver restores the amount of every pair to its pre-merge value. -/
theorem sum_add_then_subtract_restores_amount (r r2 : Option QOSResourcesTotal)
    (n c : String) :
    (GetAmount (Sum (Sum r r2 true) r2 false) n c).2 = (GetAmount r n c).2 := by
  cases r with
  | none => rfl
  | some m =>
    cases r2 with
    | none => rfl
    | some m2 =>
      show (GetAmountGo (SumGo (SumGo m m2 true) m2 false) n c).2 =
        (GetAmountGo m n c).2
      rw [amt_SumGo_false, amt_SumGo_true]
      ring

/-- C5: `Clone` answers every `GetAmount` query exactly as its source does,
and a nil source clones to nil. In this embedding ledgers are immutable
values, so the clone shares no state with the source by construction. -/
theorem clone_preserves_getAmount (m : QOSResourcesTotal) (h : WF m)
    (n c : String) :
    GetAmount (Clone (some m)) n c = GetAmount (some m) n c ∧
    Clone (none : Option QOSResourcesTotal) = none :=
  ⟨GetAmountGo_CloneGo m h n c, rfl⟩

/-- C5 witness: cloning a concrete two-class ledger preserves a query. -/
theorem clone_preserves_getAmount_inst :
    GetAmount (Clone (some [("g", [("f", (3 : Int)), ("e", (7 : Int))])]))
      "g" "f" =
      GetAmount (some [("g", [("f", (3 : Int)), ("e", (7 : Int))])]) "g" "f" ∧
    Clone (none : Option QOSResourcesTotal) = none :=
  clone_preserves_getAmount [("g", [("f", (3 : Int)), ("e", (7 : Int))])]
    ⟨by decide, by decide⟩ "g" "f"

/-- C6: every operation is total on a nil or unset ledger — mutators are
no-ops on a nil receiver, readers answer not-found, `Sum` with a nil other is
a no-op, and `Clone` of nil is nil. -/
theorem nil_ledger_operations_total :
    (∀ (n c : String) (a : Int), add none n c a = none) ∧
    (∀ qrl, AddPodQOSResources none qrl = none) ∧
    (∀ qrl, AddContainerQOSResources none qrl = none) ∧
    (∀ qrl, SetMaxContainerQOSResources none qrl = none) ∧
    (∀ (r2 : Option QOSResourcesTotal) (b : Bool), Sum none r2 b = none) ∧
    (∀ (m : QOSResourcesTotal) (b : Bool), Sum (some m) none b = some m) ∧
    (∀ n c, GetAmount none n c = (false, 0)) ∧
    (∀ n c, GetAmount (some []) n c = (false, 0)) ∧
    Clone (none : Option QOSResourcesTotal) = none := by
  refine ⟨fun n c a => rfl, fun qrl => rfl, fun qrl => rfl, fun qrl => rfl,
    fun r2 b => rfl, fun m b => rfl, fun n c => rfl,
    fun n c => GetAmountGo_nil n c, rfl⟩

/-- C7: the pod-level ledger counts every occurrence of a pair in the
pod-level request list — presence reflects at least one occurrence and the
amount is the exact number of occurrences, so duplicates accumulate. -/
theorem podLedger_counts_each_request_once (pod : Pod) (n c : String) :
    GetAmount (PodQOSResourceRequests pod).1 n c =
      (decide (0 < countPodReq pod.Spec.QOSResources n c),
       (countPodReq pod.Spec.QOSResources n c : Int)) :=
  GetAmount_podLedger pod n c

/-- C8: the info conversion maps each advertised resource to its advertised
classes with their capacities verbatim, the last occurrence winning on
duplicate names. -/
theorem fromInfo_maps_capacity_last_wins (inp : List QOSResourceInfo)
    (n c : String) :
    GetAmount (some (QOSResourcesTotalFromInfo inp)) n c =
      (match lastWins (fun qr => qr.Name) inp n with
       | none => (false, 0)
       | some qr =>
         match lastWins (fun ci => ci.Name) qr.Classes c with
         | none => (false, 0)
         | some ci => (true, ci.Capacity)) := by
  have e1 := lookupV_foldl_setVal (fun qr : QOSResourceInfo => qr.Name)
    (fun qr : QOSResourceInfo =>
      qr.Classes.foldl (fun cs ci => setVal cs ci.Name ci.Capacity) []) inp [] n
  show GetAmountGo (QOSResourcesTotalFromInfo inp) n c = _
  unfold GetAmountGo
  rw [show QOSResourcesTotalFromInfo inp =
      inp.foldl (fun acc qr => setVal acc qr.Name
        (qr.Classes.foldl (fun cs ci => setVal cs ci.Name ci.Capacity) [])) []
    from rfl, e1]
  cases hl : lastWins (fun qr : QOSResourceInfo => qr.Name) inp n with
  | none => simp [lookupV]
  | some qr =>
    dsimp only
    have e2 := lookupV_foldl_setVal (fun ci : QOSResourceClassInfo => ci.Name)
      (fun ci : QOSResourceClassInfo => ci.Capacity) qr.Classes [] c
    rw [e2]
    cases hli : lastWins (fun ci : QOSResourceClassInfo => ci.Name)
        qr.Classes c with
    | none => rfl
    | some ci => rfl

/-- C9: both ledgers produced by the aggregation entry point carry only
non-negative amounts. -/
theorem pod_aggregation_amounts_nonneg (pod : Pod) (n c : String) :
    0 ≤ (GetAmount (PodQOSResourceRequests pod).1 n c).2 ∧
    0 ≤ (GetAmount (PodQOSResourceRequests pod).2 n c).2 := by
  constructor
  · rw [GetAmount_podLedger]
    exact Int.natCast_nonneg _
  · rw [GetAmount_containerLedger]
    split_ifs with h
    · norm_num
    · exact Int.natCast_nonneg _

/-- C10: once a pair is present in a ledger, no sequence of the file's
mutating operations — adds, pod/container aggregation passes, the
init-container merge, or `Sum` in either direction — ever removes it, even
when subtraction drives the amount to zero or below. -/
theorem keys_never_removed (ops : List LedgerOp) (r : Option QOSResourcesTotal)
    (n c : String) (h : (GetAmount r n c).1 = true) :
    (GetAmount (ops.foldl applyOp r) n c).1 = true := by
  induction ops generalizing r with
  | nil => exact h
  | cons op t ih => exact ih (applyOp r op) (found_applyOp r op n c h)

/-- C10 witness: subtracting a ledger from itself and then driving the amount
negative with a raw `add` leaves the key present. -/
theorem keys_never_removed_inst :
    (GetAmount ([LedgerOp.sumOp (some [("g", [("f", (2 : Int))])]) false,
        LedgerOp.addOp "g" "f" (-1)].foldl applyOp
      (some [("g", [("f", (2 : Int))])])) "g" "f").1 = true :=
  keys_never_removed
    [LedgerOp.sumOp (some [("g", [("f", (2 : Int))])]) false,
     LedgerOp.addOp "g" "f" (-1)]
    (some [("g", [("f", (2 : Int))])]) "g" "f" (by decide)

end Resource
